import Mathlib

/-!
Shallow embedding of the Deluloop server (`src/app.py`): the `/generate`
FastAPI handler that validates a JSON chord list, normalizes an optional
uploaded drum clip (ffmpeg transcode, mono downmix, resample), invokes the
JASCO model, and writes the output under a wraparound integer filename.

External collaborators (json.loads' output, Python's `float()` on strings,
ffmpeg, torchaudio load/resample, the JASCO model) are modelled as opaque
parameters in an `Env` record; everything the handler itself does is
translated line by line from `src/app.py`.
-/

namespace Deluloop

/-- Values produced by `json.loads` (app.py line 58). -/
inductive Json : Type where
  | jnull : Json
  | jbool : Bool → Json
  | jnum : ℚ → Json
  | jstr : String → Json
  | jarr : List Json → Json
  | jobj : List (String × Json) → Json

/-- The Python exceptions that can arise inside the handler body. -/
inductive PyExc : Type where
  | http : ℕ → String → PyExc      -- fastapi.HTTPException(status_code, detail)
  | jsonDecode : PyExc             -- json.JSONDecodeError
  | typeErr : String → PyExc       -- TypeError (bad iteration / unpack / float(None))
  | valueErr : String → PyExc      -- ValueError (float() of a non-numeric string)
  | audioErr : String → PyExc      -- torchaudio load / resample failure
deriving DecidableEq

/-- Python `str(e)`.  Starlette's `HTTPException.__str__` renders as
`"<status_code>: <detail>"`; the other exceptions render their message. -/
def PyExc.pystr : PyExc → String
  | .http s d => toString s ++ ": " ++ d
  | .jsonDecode => "Expecting value"
  | .typeErr m => m
  | .valueErr m => m
  | .audioErr m => m

/-- app.py line 30. -/
def DEFAULT_PROMPT : String := "Strings, woodwind, orchestral, symphony."

/-- app.py line 31: `[('Am7', 0.0), ('D7', 5.0), ('G', 8.0)]`. -/
def DEFAULT_CHORDS : List (String × ℚ) := [("Am7", 0), ("D7", 5), ("G", 8)]

/-- app.py line 41: `file_counter = 1`. -/
def INITIAL_FILE_COUNTER : ℕ := 1

/-- Python iteration over the value `json.loads` returned
(`for _, time in chord_list`, line 60): lists yield their elements, strings
their characters, dicts their keys; numbers, booleans and `None` raise. -/
def pyIter : Json → Except PyExc (List Json)
  | .jarr xs => .ok xs
  | .jstr s => .ok (s.toList.map fun c => .jstr c.toString)
  | .jobj fs => .ok (fs.map fun f => .jstr f.1)
  | _ => .error (.typeErr "object is not iterable")

/-- Python two-target unpacking `chord, time = element` (lines 60 and 65):
succeeds exactly on length-2 sequences. -/
def unpack2 : Json → Except PyExc (Json × Json)
  | .jarr [a, b] => .ok (a, b)
  | .jarr _ => .error (.valueErr "unpack")
  | .jstr s =>
      match s.toList with
      | [a, b] => .ok (.jstr a.toString, .jstr b.toString)
      | _ => .error (.valueErr "unpack")
  | .jobj [a, b] => .ok (.jstr a.1, .jstr b.1)
  | .jobj _ => .error (.valueErr "unpack")
  | _ => .error (.typeErr "cannot unpack non-sequence")

/-- Python `float(time)` (lines 60 and 65).  `pfs` is the Python runtime's
numeric-string parser (opaque to this repository): `float` succeeds on JSON
numbers and booleans, parses strings via `pfs`, and raises otherwise. -/
def pyFloat (pfs : String → Option ℚ) : Json → Except PyExc ℚ
  | .jnum q => .ok q
  | .jbool b => .ok (if b then 1 else 0)
  | .jstr s =>
      match pfs s with
      | some q => .ok q
      | none => .error (.valueErr ("could not convert string to float: " ++ s))
  | _ => .error (.typeErr "float() argument must be a string or a real number")

/-- Python `str(chord)` (line 65).  Strings pass through unchanged; the
renderings of non-string values are abstracted (the handler's contract never
inspects them). -/
def pyStr : Json → String
  | .jstr s => s
  | .jnum q => toString q
  | .jbool b => if b then "True" else "False"
  | .jnull => "None"
  | .jarr _ => "<list>"
  | .jobj _ => "<dict>"

/-- Line 60: `any(float(time) > 10.0 for _, time in chord_list)` followed by
the `raise HTTPException(400, ...)` on line 61; evaluated element by element,
raising at the first coercion failure or the first violating time. -/
def checkTimes (pfs : String → Option ℚ) : List Json → Except PyExc Unit
  | [] => .ok ()
  | x :: xs =>
      match unpack2 x with
      | .error e => .error e
      | .ok p =>
          match pyFloat pfs p.2 with
          | .error e => .error e
          | .ok t =>
              if t > 10 then
                .error (.http 400 "Chord times cannot exceed 10.0 seconds")
              else
                checkTimes pfs xs

/-- Line 65: `[(str(chord), float(time)) for chord, time in chord_list]`. -/
def coercePairs (pfs : String → Option ℚ) : List Json → Except PyExc (List (String × ℚ))
  | [] => .ok []
  | x :: xs =>
      match unpack2 x with
      | .error e => .error e
      | .ok p =>
          match pyFloat pfs p.2 with
          | .error e => .error e
          | .ok t =>
              match coercePairs pfs xs with
              | .error e => .error e
              | .ok rest => .ok ((pyStr p.1, t) :: rest)

/-- The `chords` form field after `json.loads`: the field was absent or an
empty (falsy) string, or present but `json.loads` raised
`JSONDecodeError`, or present and parsed to a JSON value. -/
inductive ChordsInput : Type where
  | omitted : ChordsInput
  | unparsable : ChordsInput
  | parsed : Json → ChordsInput

/-- Lines 56-71: the chord-processing block.  The inner `try` catches only
`json.JSONDecodeError` (falling back to `DEFAULT_CHORDS`); every other
exception — including the `HTTPException(400)` raised by the time check —
escapes this block. -/
def processChords (pfs : String → Option ℚ) : ChordsInput → Except PyExc (List (String × ℚ))
  | .omitted => .ok DEFAULT_CHORDS
  | .unparsable => .ok DEFAULT_CHORDS
  | .parsed j =>
      match pyIter j with
      | .error e => .error e
      | .ok xs =>
          match checkTimes pfs xs with
          | .error e => .error e
          | .ok _ => coercePairs pfs xs

/-- A decoded waveform, channel-major: `w[c]` is channel `c`'s samples
(`torchaudio.load` returns a channels × samples tensor). -/
abbrev Wave := List (List ℚ)

/-- Sum across the channel dimension of a rectangular channels × samples
tensor. -/
def sumChannels : Wave → List ℚ
  | [] => []
  | [c] => c
  | c :: cs => List.zipWith (· + ·) c (sumChannels cs)

/-- Line 109: `drums_wav.mean(dim=0, keepdim=True)` — collapse channels to
one by arithmetic mean, keeping the channel dimension. -/
def meanChannels (w : Wave) : Wave :=
  [(sumChannels w).map fun x => x / (w.length : ℚ)]

/-- The uploaded `drums` file (`UploadFile`); only its filename is inspected
by the handler's control flow. -/
structure Upload : Type where
  filename : String

/-- Results of the external calls made while serving one request: Python's
`float()` string parser, the ffmpeg transcode (line 91-96, diagnostic text on
failure), `torchaudio.load` of the transcoded WAV (line 102), the resampler
(line 114-115), and `jasco_chords_drums.sample_rate`. -/
structure Env : Type where
  pyFloatStr : String → Option ℚ
  ffmpegResult : Except String Unit
  decodeResult : Except String (Wave × ℕ)
  resampleResult : ℕ → ℕ → Wave → Except String Wave
  modelSampleRate : ℕ

/-- Outcome of the drum-processing block (lines 74-125): how many temporary
files were created and deleted, and either the normalized waveform to pass to
generation (`some`), `none` when no usable upload was given, or the escaping
exception. -/
structure DrumsOut : Type where
  tempCreated : ℕ
  tempDeleted : ℕ
  result : Except PyExc (Option Wave)

/-- Line 74: `if drums and drums.filename:` — an `UploadFile` with a
non-empty filename. -/
def hasDrums : Option Upload → Bool
  | none => false
  | some u => u.filename ≠ ""

/-- Lines 74-125.  Both temp files (the saved upload, line 78, and the
transcode target, line 86) are created with `delete=False` before ffmpeg
runs; `os.unlink` of both (lines 119-120) is the last step of the `try`
body, so it runs only when every prior step succeeded.  The inner
`except Exception` (line 123) re-raises any exception `e` as
`HTTPException(500, str(e))` without deleting anything. -/
def processDrums (env : Env) : Option Upload → DrumsOut
  | none => ⟨0, 0, .ok none⟩
  | some u =>
      if u.filename = "" then ⟨0, 0, .ok none⟩
      else
        match env.ffmpegResult with
        | .error _diag =>
            -- line 99 raises HTTPException(500, "Audio conversion failed");
            -- line 125 re-wraps it as HTTPException(500, str(e))
            ⟨2, 0, .error (.http 500 (PyExc.pystr (.http 500 "Audio conversion failed")))⟩
        | .ok _ =>
            match env.decodeResult with
            | .error msg => ⟨2, 0, .error (.http 500 (PyExc.pystr (.audioErr msg)))⟩
            | .ok (w, sr) =>
                -- line 106: `if drums_wav.shape[0] != 1:` → mono downmix
                let w1 := if w.length ≠ 1 then meanChannels w else w
                -- line 112: resample only when the rates differ
                if sr = env.modelSampleRate then
                  ⟨2, 2, .ok (some w1)⟩
                else
                  match env.resampleResult sr env.modelSampleRate w1 with
                  | .error msg => ⟨2, 0, .error (.http 500 (PyExc.pystr (.audioErr msg)))⟩
                  | .ok w2 => ⟨2, 2, .ok (some w2)⟩

/-- Lines 131-132: `while os.path.exists(f"output/{file_counter}.wav"):
file_counter = (file_counter % 999) + 1`, fuelled.  `none` models
non-termination of the unbounded loop; fuel 999 probes every slot once
whenever the counter is in range (proved below). -/
def scan (disk : ℕ → Bool) : ℕ → ℕ → Option ℕ
  | _, 0 => none
  | c, fuel + 1 => if disk c then scan disk (c % 999 + 1) fuel else some c

/-- The argument list of the `jasco_chords_drums.generate_music` call
(lines 139-153): the drum keyword arguments are present only on the custom
drums branch, where `drums_sample_rate=jasco_chords_drums.sample_rate`. -/
structure GenArgs : Type where
  descriptions : List String
  chords : List (String × ℚ)
  drumsWav : Option Wave
  drumsSampleRate : Option ℕ
deriving DecidableEq

/-- Observable side effects of one handler run: temporary files created and
deleted, the `generate_music` call (if reached) and the output file written
(if any). -/
structure Trace : Type where
  tempCreated : ℕ
  tempDeleted : ℕ
  genCall : Option GenArgs
  outputWritten : Option ℕ

/-- What the caller observes: `FileResponse("output/<n>.wav")` with header
`X-File-Path: output/<n>`, or an `HTTPException`, or a handler that never
returns (the filename scan spinning forever). -/
inductive Outcome : Type where
  | ok : ℕ → Outcome
  | httpError : ℕ → String → Outcome
  | diverges : Outcome

/-- Process-wide server state: the `file_counter` global (line 41) and which
`output/<n>.wav` files exist on disk. -/
structure SrvState : Type where
  counter : ℕ
  disk : ℕ → Bool

/-- One request's decoded form fields. -/
structure Request : Type where
  prompt : String
  chords : ChordsInput
  drums : Option Upload

/-- A handler run: the response outcome, the effect trace, and the server
state afterwards. -/
structure HandlerOut : Type where
  outcome : Outcome
  trace : Trace
  finalCounter : ℕ
  finalDisk : ℕ → Bool

/-- The whole `/generate` handler (lines 43-175), for one request.
`defaultDrums` is the module-level `(DEFAULT_DRUMS_WAV, DEFAULT_DRUMS_SR)`
pair loaded on line 32; the only use inside the handler (line 128) is
commented out in the source, so the argument is never read.  The outer
`try`/`except Exception` (lines 49, 173-175) converts every escaping
exception `e` — the validation `HTTPException(400)` included, since
`HTTPException` subclasses `Exception` — into `HTTPException(500, str(e))`. -/
def runRequest (env : Env) (defaultDrums : Wave × ℕ) (st : SrvState) (req : Request) :
    HandlerOut :=
  match processChords env.pyFloatStr req.chords with
  | .error e =>
      ⟨.httpError 500 e.pystr, ⟨0, 0, none, none⟩, st.counter, st.disk⟩
  | .ok prog =>
      let d := processDrums env req.drums
      match d.result with
      | .error e =>
          ⟨.httpError 500 e.pystr, ⟨d.tempCreated, d.tempDeleted, none, none⟩,
            st.counter, st.disk⟩
      | .ok maybeWav =>
          match scan st.disk st.counter 999 with
          | none =>
              -- the while loop never exits; no further effect is observable
              ⟨.diverges, ⟨d.tempCreated, d.tempDeleted, none, none⟩,
                st.counter, st.disk⟩
          | some n =>
              let args : GenArgs :=
                { descriptions := [if req.prompt = "" then DEFAULT_PROMPT else req.prompt]
                  chords := prog
                  drumsWav := maybeWav
                  drumsSampleRate :=
                    match maybeWav with
                    | some _ => some env.modelSampleRate
                    | none => none }
              ⟨.ok n,
                ⟨d.tempCreated, d.tempDeleted, some args, some n⟩,
                n % 999 + 1,
                fun m => m == n || st.disk m⟩

/-- Sequential successful requests: run each request in turn, recording the
pre-state and chosen filename of each; `none` as soon as any request fails
to return a `FileResponse`. -/
def runSeq (env : Env) (dd : Wave × ℕ) :
    List Request → SrvState → Option (List (SrvState × ℕ) × SrvState)
  | [], st => some ([], st)
  | r :: rs, st =>
      let h := runRequest env dd st r
      match h.outcome with
      | .ok n =>
          match runSeq env dd rs ⟨h.finalCounter, h.finalDisk⟩ with
          | none => none
          | some (l, st2) => some ((st, n) :: l, st2)
      | _ => none

/-! ### Properties of the filename scan -/

/-- A successful scan returns a slot in range with no file on it. -/
theorem scan_ok_range (disk : ℕ → Bool) :
    ∀ fuel c n, 1 ≤ c → c ≤ 999 → scan disk c fuel = some n →
      1 ≤ n ∧ n ≤ 999 ∧ disk n = false := by
  intro fuel
  induction fuel with
  | zero => intro c n _ _ h; simp [scan] at h
  | succ k ih =>
      intro c n hc1 hc2 h
      rw [scan] at h
      by_cases hd : disk c = true
      · rw [if_pos hd] at h
        exact ih (c % 999 + 1) n (Nat.le_add_left 1 _)
          (by have := Nat.mod_lt c (by norm_num : 0 < 999); omega) h
      · rw [if_neg hd] at h
        cases h
        exact ⟨hc1, hc2, by simpa using hd⟩

/-- If every slot in `{1..999}` is occupied, the scan never exits. -/
theorem scan_all_full (disk : ℕ → Bool)
    (hfull : ∀ m, 1 ≤ m → m ≤ 999 → disk m = true) :
    ∀ fuel c, 1 ≤ c → c ≤ 999 → scan disk c fuel = none := by
  intro fuel
  induction fuel with
  | zero => intro c _ _; rfl
  | succ k ih =>
      intro c hc1 hc2
      rw [scan, if_pos (hfull c hc1 hc2)]
      exact ih (c % 999 + 1) (Nat.le_add_left 1 _)
        (by have := Nat.mod_lt c (by norm_num : 0 < 999); omega)

/-- With a free slot at or above the cursor (and within `{1..999}`), the scan
succeeds, given enough fuel to walk up to it. -/
theorem scan_reaches_up (disk : ℕ → Bool) :
    ∀ fuel c n, c ≤ n → n ≤ 999 → disk n = false → n - c < fuel →
      ∃ r, scan disk c fuel = some r := by
  intro fuel
  induction fuel with
  | zero => intro c n _ _ _ h; omega
  | succ k ih =>
      intro c n hcn hn999 hfree hfuel
      rw [scan]
      by_cases hd : disk c = true
      · rw [if_pos hd]
        have hne : c ≠ n := fun h => by rw [h] at hd; rw [hd] at hfree; cases hfree
        have hc999 : c < 999 := by omega
        rw [Nat.mod_eq_of_lt hc999]
        exact ih (c + 1) n (by omega) hn999 hfree (by omega)
      · rw [if_neg hd]; exact ⟨c, rfl⟩

/-- If every slot from the cursor up to 999 is occupied, the scan wraps to 1,
spending `1000 - c` fuel on the way. -/
theorem scan_wraps (disk : ℕ → Bool) :
    ∀ fuel c, 1 ≤ c → c ≤ 999 → (∀ m, c ≤ m → m ≤ 999 → disk m = true) →
      1000 - c ≤ fuel → scan disk c fuel = scan disk 1 (fuel - (1000 - c)) := by
  intro fuel
  induction fuel with
  | zero => intro c _ hc2 _ hf; omega
  | succ k ih =>
      intro c hc1 hc2 hfull hf
      rw [scan, if_pos (hfull c le_rfl hc2)]
      by_cases hc : c = 999
      · subst hc; norm_num
      · have hc999 : c < 999 := by omega
        rw [Nat.mod_eq_of_lt hc999]
        have := ih (c + 1) (by omega) (by omega)
          (fun m hm hm2 => hfull m (by omega) hm2) (by omega)
        rw [this]
        congr 1
        omega

/-- With the cursor in range, fuel 999 decides the loop: it terminates
exactly when some slot in `{1..999}` is free. -/
theorem scan_succeeds_of_free (disk : ℕ → Bool) (c : ℕ) (hc1 : 1 ≤ c) (hc2 : c ≤ 999)
    (n : ℕ) (hn1 : 1 ≤ n) (hn2 : n ≤ 999) (hfree : disk n = false) :
    ∃ r, scan disk c 999 = some r := by
  by_cases hup : ∃ m, c ≤ m ∧ m ≤ 999 ∧ disk m = false
  · obtain ⟨m, hm1, hm2, hm3⟩ := hup
    exact scan_reaches_up disk 999 c m hm1 hm2 hm3 (by omega)
  · push_neg at hup
    have hfullup : ∀ m, c ≤ m → m ≤ 999 → disk m = true := by
      intro m h1 h2
      rcases Bool.eq_false_or_eq_true (disk m) with h | h
      · exact h
      · exact absurd h (hup m h1 h2)
    rw [scan_wraps disk 999 c hc1 hc2 hfullup (by omega)]
    have hnc : n < c := by
      rcases Nat.lt_or_ge n c with h | h
      · exact h
      · exact absurd hfree (by simp [hfullup n h hn2])
    exact scan_reaches_up disk (999 - (1000 - c)) 1 n hn1 hn2 hfree (by omega)

/-- Under the fresh-start invariant (every slot strictly below the cursor is
occupied), a successful scan never wraps: it returns the cursor or a later
slot, every slot it skipped being occupied. -/
theorem scan_no_wrap (disk : ℕ → Bool) :
    ∀ fuel c n, 1 ≤ c → c ≤ 999 → (∀ m, 1 ≤ m → m < c → disk m = true) →
      scan disk c fuel = some n →
      c ≤ n ∧ n ≤ 999 ∧ disk n = false ∧ ∀ m, c ≤ m → m < n → disk m = true := by
  intro fuel
  induction fuel with
  | zero => intro c n _ _ _ h; simp [scan] at h
  | succ k ih =>
      intro c n hc1 hc2 hinv h
      rw [scan] at h
      by_cases hd : disk c = true
      · rw [if_pos hd] at h
        by_cases hc : c = 999
        · subst hc
          have hfull : ∀ m, 1 ≤ m → m ≤ 999 → disk m = true := by
            intro m h1 h2
            rcases Nat.lt_or_ge m 999 with hlt | hge
            · exact hinv m h1 hlt
            · have : m = 999 := by omega
              rw [this]; exact hd
          rw [scan_all_full disk hfull k (999 % 999 + 1) (by norm_num) (by norm_num)] at h
          cases h
        · have hc999 : c < 999 := by omega
          rw [Nat.mod_eq_of_lt hc999] at h
          have hinv1 : ∀ m, 1 ≤ m → m < c + 1 → disk m = true := by
            intro m h1 h2
            rcases Nat.lt_or_ge m c with hlt | hge
            · exact hinv m h1 hlt
            · have : m = c := by omega
              rw [this]; exact hd
          obtain ⟨h1, h2, h3, h4⟩ := ih (c + 1) n (by omega) (by omega) hinv1 h
          refine ⟨by omega, h2, h3, ?_⟩
          intro m hm1 hm2
          rcases Nat.lt_or_ge m (c + 1) with hlt | hge
          · have : m = c := by omega
            rw [this]; exact hd
          · exact h4 m hge hm2
      · rw [if_neg hd] at h
        cases h
        exact ⟨le_rfl, hc2, by simpa using hd, fun m h1 h2 => by omega⟩

/-! ### Properties of chord processing -/

/-- The JSON encoding of a well-formed (symbol, time) chord pair, as the
client sends it: a two-element JSON array whose second entry is a number. -/
def encPair (p : Json × ℚ) : Json := Json.jarr [p.1, Json.jnum p.2]

theorem checkTimes_enc_ok (pfs : String → Option ℚ) :
    ∀ pairs : List (Json × ℚ), (∀ p ∈ pairs, p.2 ≤ 10) →
      checkTimes pfs (pairs.map encPair) = .ok () := by
  intro pairs
  induction pairs with
  | nil => intro _; rfl
  | cons p ps ih =>
      intro h
      have hp : ¬ p.2 > 10 := not_lt.mpr (h p (List.mem_cons_self p ps))
      have : checkTimes pfs ((p :: ps).map encPair)
          = if p.2 > 10 then
              Except.error (.http 400 "Chord times cannot exceed 10.0 seconds")
            else checkTimes pfs (ps.map encPair) := rfl
      rw [this, if_neg hp]
      exact ih fun q hq => h q (List.mem_cons_of_mem p hq)

theorem coercePairs_enc (pfs : String → Option ℚ) :
    ∀ pairs : List (Json × ℚ),
      coercePairs pfs (pairs.map encPair)
        = .ok (pairs.map fun p => (pyStr p.1, p.2)) := by
  intro pairs
  induction pairs with
  | nil => rfl
  | cons p ps ih =>
      have : coercePairs pfs ((p :: ps).map encPair)
          = match coercePairs pfs (ps.map encPair) with
            | .error e => .error e
            | .ok rest => .ok ((pyStr p.1, p.2) :: rest) := rfl
      rw [this, ih]
      rfl

theorem checkTimes_overtime (pfs : String → Option ℚ) :
    ∀ (xs : List Json) (c : Json) (q : ℚ),
      Json.jarr [c, Json.jnum q] ∈ xs → q > 10 →
      ∃ e, checkTimes pfs xs = .error e := by
  intro xs
  induction xs with
  | nil => intro c q h _; cases h
  | cons x xs ih =>
      intro c q hmem hq
      rcases List.mem_cons.mp hmem with heq | hmem2
      · subst heq
        refine ⟨.http 400 "Chord times cannot exceed 10.0 seconds", ?_⟩
        have : checkTimes pfs (Json.jarr [c, Json.jnum q] :: xs)
            = if q > 10 then
                Except.error (.http 400 "Chord times cannot exceed 10.0 seconds")
              else checkTimes pfs xs := rfl
        rw [this, if_pos hq]
      · rcases hu : unpack2 x with e | p
        · exact ⟨e, by simp only [checkTimes, hu]⟩
        · rcases hf : pyFloat pfs p.2 with e | t
          · exact ⟨e, by simp only [checkTimes, hu, hf]⟩
          · by_cases ht : t > 10
            · exact ⟨.http 400 "Chord times cannot exceed 10.0 seconds",
                by simp only [checkTimes, hu, hf, if_pos ht]⟩
            · obtain ⟨e, he⟩ := ih c q hmem2 hq
              exact ⟨e, by simp only [checkTimes, hu, hf, if_neg ht, he]⟩

/-- When the chord list contains an over-horizon pair, the whole
chord-processing block raises. -/
theorem processChords_overtime (pfs : String → Option ℚ) (xs : List Json)
    (c : Json) (q : ℚ) (hmem : Json.jarr [c, Json.jnum q] ∈ xs) (hq : q > 10) :
    ∃ e, processChords pfs (.parsed (.jarr xs)) = .error e := by
  obtain ⟨e, he⟩ := checkTimes_overtime pfs xs c q hmem hq
  exact ⟨e, by rw [processChords]; show (match checkTimes pfs xs with
    | .error e => Except.error e
    | .ok _ => coercePairs pfs xs) = .error e; rw [he]⟩

/-! ### Structural lemmas about one handler run -/

/-- A chord-processing exception short-circuits the handler: no temp file,
no generation call, no output, state untouched, a 500 response. -/
theorem runRequest_chords_error (env : Env) (dd : Wave × ℕ) (st : SrvState)
    (req : Request) (e : PyExc)
    (h : processChords env.pyFloatStr req.chords = .error e) :
    runRequest env dd st req =
      ⟨.httpError 500 e.pystr, ⟨0, 0, none, none⟩, st.counter, st.disk⟩ := by
  simp only [runRequest, h]

/-- A `FileResponse` outcome pins down the scan result, the counter update
and the disk update. -/
theorem runRequest_ok_inv (env : Env) (dd : Wave × ℕ) (st : SrvState)
    (req : Request) (n : ℕ)
    (h : (runRequest env dd st req).outcome = .ok n) :
    scan st.disk st.counter 999 = some n
    ∧ (runRequest env dd st req).finalCounter = n % 999 + 1
    ∧ (runRequest env dd st req).finalDisk = fun m => m == n || st.disk m := by
  rcases hch : processChords env.pyFloatStr req.chords with e | prog
  · rw [runRequest_chords_error env dd st req e hch] at h
    exact Outcome.noConfusion h
  · simp only [runRequest, hch] at h ⊢
    rcases hdr : (processDrums env req.drums).result with e | mw
    · simp only [hdr] at h
      exact Outcome.noConfusion h
    · simp only [hdr] at h ⊢
      rcases hsc : scan st.disk st.counter 999 with _ | m
      · simp only [hsc] at h
        exact Outcome.noConfusion h
      · simp only [hsc] at h ⊢
        cases h
        exact ⟨rfl, rfl, rfl⟩

/-- Once chord processing succeeded, the handler's temp-file counts are
those of the drum-processing block. -/
theorem runRequest_temp_counts (env : Env) (dd : Wave × ℕ) (st : SrvState)
    (req : Request) (prog : List (String × ℚ))
    (hch : processChords env.pyFloatStr req.chords = .ok prog) :
    (runRequest env dd st req).trace.tempCreated = (processDrums env req.drums).tempCreated
    ∧ (runRequest env dd st req).trace.tempDeleted = (processDrums env req.drums).tempDeleted := by
  simp only [runRequest, hch]
  rcases hdr : (processDrums env req.drums).result with e | mw
  · exact ⟨rfl, rfl⟩
  · rcases hsc : scan st.disk st.counter 999 with _ | n
    · exact ⟨rfl, rfl⟩
    · exact ⟨rfl, rfl⟩

/-- Exhaustive shape of the drum-processing block on a real upload: either
some step failed (both temp files left behind) or all succeeded (both
deleted, a waveform produced). -/
theorem processDrums_cases (env : Env) (u : Upload) (hu : ¬ u.filename = "") :
    (∃ e, processDrums env (some u) = ⟨2, 0, .error e⟩)
    ∨ (∃ w, processDrums env (some u) = ⟨2, 2, .ok (some w)⟩) := by
  rcases hff : env.ffmpegResult with d | u'
  · refine .inl ⟨.http 500 (PyExc.pystr (.http 500 "Audio conversion failed")), ?_⟩
    simp only [processDrums, if_neg hu, hff]
  · rcases hdec : env.decodeResult with msg | p
    · refine .inl ⟨.http 500 (PyExc.pystr (.audioErr msg)), ?_⟩
      simp only [processDrums, if_neg hu, hff, hdec]
    · rcases p with ⟨w, sr⟩
      by_cases hsr : sr = env.modelSampleRate
      · refine .inr ⟨if w.length ≠ 1 then meanChannels w else w, ?_⟩
        simp only [processDrums, if_neg hu, hff, hdec, if_pos hsr]
      · rcases hres : env.resampleResult sr env.modelSampleRate
            (if w.length ≠ 1 then meanChannels w else w) with msg | w2
        · refine .inl ⟨.http 500 (PyExc.pystr (.audioErr msg)), ?_⟩
          simp only [processDrums, if_neg hu, hff, hdec, if_neg hsr, hres]
        · refine .inr ⟨w2, ?_⟩
          simp only [processDrums, if_neg hu, hff, hdec, if_neg hsr, hres]

/-- Without a usable upload, the drum block does nothing. -/
theorem processDrums_noDrums (env : Env) (drums : Option Upload)
    (h : hasDrums drums = false) : processDrums env drums = ⟨0, 0, .ok none⟩ := by
  cases drums with
  | none => rfl
  | some u =>
      have hu : u.filename = "" := by
        by_contra hne
        simp [hasDrums, hne] at h
      simp [processDrums, hu]

/-! ### Concrete fixtures for evaluation -/

/-- A benign environment: every external call succeeds. -/
def env0 : Env :=
  ⟨fun _ => none, .ok (), .ok ([[0]], 32000), fun _ _ w => .ok w, 32000⟩

/-- An environment in which the ffmpeg transcode fails with a diagnostic. -/
def envFfmpegFail : Env :=
  ⟨fun _ => none, .error "ffmpeg diagnostic text", .ok ([[0]], 32000),
    fun _ _ w => .ok w, 32000⟩

/-- The bundled default drum reference (its value is irrelevant). -/
def dd0 : Wave × ℕ := ([[0]], 44100)

/-- Fresh server state: counter 1, empty `output/` directory. -/
def st0 : SrvState := ⟨1, fun _ => false⟩

/-- The spec's concrete scenario: empty prompt, chords and drums omitted. -/
def req0 : Request := ⟨"", .omitted, none⟩

/-- The spec's concrete rejection scenario:
`chords=[["C",0.0],["G",11.0]]`. -/
def reqOvertime : Request :=
  ⟨"p", .parsed (.jarr [.jarr [.jstr "C", .jnum 0], .jarr [.jstr "G", .jnum 11]]), none⟩

/-- A request uploading a drum clip. -/
def reqDrums : Request := ⟨"beats", .omitted, some ⟨"clip.mp3"⟩⟩

/-! ### The claims -/

/-- C1: the claim says a chord time over 10.0 yields an HTTP 400; in the code
the `HTTPException(400, "Chord times cannot exceed 10.0 seconds")` raised on
line 61 is swallowed by the blanket `except Exception` on line 173 (FastAPI's
`HTTPException` subclasses `Exception`) and re-raised as
`HTTPException(500, str(e))`, so the client observes a 500 whose detail is
the stringified 400 — the code contradicts its own raise statement. -/
theorem c1_overtime_chords_answered_500_not_400 :
    (runRequest env0 dd0 st0 reqOvertime).outcome
      = .httpError 500 "400: Chord times cannot exceed 10.0 seconds"
    ∧ ∀ d, (runRequest env0 dd0 st0 reqOvertime).outcome ≠ .httpError 400 d := by
  have h1 : (runRequest env0 dd0 st0 reqOvertime).outcome
      = .httpError 500 "400: Chord times cannot exceed 10.0 seconds" := by rfl
  refine ⟨h1, fun d hd => ?_⟩
  rw [h1] at hd
  injection hd with h5 _
  omega

/-- C2: any parsed chord array containing a pair with time value above 10.0
makes the handler raise before any effect: no temp file, no output file, no
`generate_music` call, disk and counter untouched. -/
theorem c2_overtime_chords_reject_before_effects
    (env : Env) (dd : Wave × ℕ) (st : SrvState) (prompt : String)
    (drums : Option Upload) (xs : List Json) (c : Json) (q : ℚ)
    (hmem : Json.jarr [c, Json.jnum q] ∈ xs) (hq : q > 10) :
    (∃ detail, (runRequest env dd st ⟨prompt, .parsed (.jarr xs), drums⟩).outcome
        = .httpError 500 detail)
    ∧ (runRequest env dd st ⟨prompt, .parsed (.jarr xs), drums⟩).trace.outputWritten = none
    ∧ (runRequest env dd st ⟨prompt, .parsed (.jarr xs), drums⟩).trace.genCall = none
    ∧ (runRequest env dd st ⟨prompt, .parsed (.jarr xs), drums⟩).trace.tempCreated = 0
    ∧ (runRequest env dd st ⟨prompt, .parsed (.jarr xs), drums⟩).finalDisk = st.disk
    ∧ (runRequest env dd st ⟨prompt, .parsed (.jarr xs), drums⟩).finalCounter = st.counter := by
  obtain ⟨e, he⟩ := processChords_overtime env.pyFloatStr xs c q hmem hq
  rw [runRequest_chords_error env dd st ⟨prompt, .parsed (.jarr xs), drums⟩ e he]
  exact ⟨⟨e.pystr, rfl⟩, rfl, rfl, rfl, rfl, rfl⟩

theorem c2_witness :
    (∃ detail, (runRequest env0 dd0 st0 reqOvertime).outcome = .httpError 500 detail)
    ∧ (runRequest env0 dd0 st0 reqOvertime).trace.outputWritten = none
    ∧ (runRequest env0 dd0 st0 reqOvertime).trace.genCall = none
    ∧ (runRequest env0 dd0 st0 reqOvertime).trace.tempCreated = 0
    ∧ (runRequest env0 dd0 st0 reqOvertime).finalDisk = st0.disk
    ∧ (runRequest env0 dd0 st0 reqOvertime).finalCounter = st0.counter :=
  c2_overtime_chords_reject_before_effects env0 dd0 st0 "p" none
    [.jarr [.jstr "C", .jnum 0], .jarr [.jstr "G", .jnum 11]]
    (.jstr "G") 11 (List.mem_cons_of_mem _ (List.mem_cons_self _ _)) (by norm_num)

/-- C5: a `chords` field that `json.loads` rejects behaves exactly like an
omitted `chords` field: the default progression is substituted (line 66-68)
and the whole handler run — response, effects, final state — is identical. -/
theorem c5_unparsable_chords_equal_omitted (env : Env) (dd : Wave × ℕ)
    (st : SrvState) (prompt : String) (drums : Option Upload) :
    runRequest env dd st ⟨prompt, .unparsable, drums⟩
      = runRequest env dd st ⟨prompt, .omitted, drums⟩
    ∧ processChords env.pyFloatStr .unparsable = .ok DEFAULT_CHORDS :=
  ⟨rfl, rfl⟩

/-- C3 counterexample: on the ffmpeg-failure path both temporary files are
created and neither is deleted before the handler exits, contradicting
"deletion on every exit path". -/
theorem c3_counterexample :
    (runRequest envFfmpegFail dd0 st0 reqDrums).trace.tempCreated = 2
    ∧ (runRequest envFfmpegFail dd0 st0 reqDrums).trace.tempDeleted = 0 :=
  ⟨rfl, rfl⟩

/-- C3 amended: both temporary files are created whenever a drums upload is
processed; they are deleted before handler exit on the success path only —
on every failure path (transcode, decode or resample failure) the handler
exits with neither temp file deleted (`os.unlink` on lines 119-120 is only
reached when everything before it succeeded, and the `except` on line 123
re-raises without cleanup). -/
theorem c3_amended_temp_cleanup (env : Env) (dd : Wave × ℕ) (st : SrvState)
    (prompt : String) (chords : ChordsInput) (u : Upload) (prog : List (String × ℚ))
    (hu : ¬ u.filename = "")
    (hch : processChords env.pyFloatStr chords = .ok prog) :
    (runRequest env dd st ⟨prompt, chords, some u⟩).trace.tempCreated = 2
    ∧ ((∃ w, (processDrums env (some u)).result = .ok w) →
        (runRequest env dd st ⟨prompt, chords, some u⟩).trace.tempDeleted = 2)
    ∧ ((∃ e, (processDrums env (some u)).result = .error e) →
        (runRequest env dd st ⟨prompt, chords, some u⟩).trace.tempDeleted = 0) := by
  obtain ⟨hc, hd⟩ :=
    runRequest_temp_counts env dd st ⟨prompt, chords, some u⟩ prog hch
  rcases processDrums_cases env u hu with ⟨e, hpe⟩ | ⟨w, hpw⟩
  · refine ⟨by rw [hc, hpe], fun ⟨w2, hw⟩ => ?_, fun _ => by rw [hd, hpe]⟩
    rw [hpe] at hw
    exact Except.noConfusion hw
  · refine ⟨by rw [hc, hpw], fun _ => by rw [hd, hpw], fun ⟨e2, he⟩ => ?_⟩
    rw [hpw] at he
    exact Except.noConfusion he

theorem c3_witness :
    (runRequest envFfmpegFail dd0 st0 reqDrums).trace.tempCreated = 2
    ∧ ((∃ w, (processDrums envFfmpegFail (some ⟨"clip.mp3"⟩)).result = .ok w) →
        (runRequest envFfmpegFail dd0 st0 reqDrums).trace.tempDeleted = 2)
    ∧ ((∃ e, (processDrums envFfmpegFail (some ⟨"clip.mp3"⟩)).result = .error e) →
        (runRequest envFfmpegFail dd0 st0 reqDrums).trace.tempDeleted = 0) :=
  c3_amended_temp_cleanup envFfmpegFail dd0 st0 "beats" .omitted ⟨"clip.mp3"⟩
    DEFAULT_CHORDS (by decide) rfl

/-- C4 counterexample: when ffmpeg fails with diagnostic
"ffmpeg diagnostic text", the response detail is the doubly re-wrapped fixed
string — the diagnostic is nowhere in it. -/
theorem c4_counterexample :
    (runRequest envFfmpegFail dd0 st0 reqDrums).outcome
      = .httpError 500 "500: 500: Audio conversion failed"
    ∧ ¬ ("ffmpeg diagnostic text".toList
          <:+: "500: 500: Audio conversion failed".toList) :=
  ⟨rfl, by decide⟩

/-- C4 amended: on any ffmpeg transcode failure the handler answers 500 whose
detail is the fixed string "Audio conversion failed" (wrapped to
"500: 500: Audio conversion failed" by the two `except` re-raises on lines
123-125 and 173-175), independent of the ffmpeg diagnostic; the diagnostic is
only printed to the console (line 98). -/
theorem c4_amended_transcode_error_detail (env : Env) (dd : Wave × ℕ)
    (st : SrvState) (prompt : String) (u : Upload) (diag : String)
    (hu : ¬ u.filename = "") (hff : env.ffmpegResult = .error diag) :
    (runRequest env dd st ⟨prompt, .omitted, some u⟩).outcome
      = .httpError 500 "500: 500: Audio conversion failed" := by
  have hpd : processDrums env (some u)
      = ⟨2, 0, .error (.http 500 (PyExc.pystr (.http 500 "Audio conversion failed")))⟩ := by
    simp only [processDrums, if_neg hu, hff]
  have hch : processChords env.pyFloatStr ChordsInput.omitted = .ok DEFAULT_CHORDS := rfl
  simp only [runRequest, hch, hpd]
  rfl

theorem c4_witness :
    (runRequest envFfmpegFail dd0 st0 reqDrums).outcome
      = .httpError 500 "500: 500: Audio conversion failed" :=
  c4_amended_transcode_error_detail envFfmpegFail dd0 st0 "beats" ⟨"clip.mp3"⟩
    "ffmpeg diagnostic text" (by decide) rfl

/-- When no usable drums upload is present, whatever the handler passes to
`generate_music` carries no drum waveform and no drum sample rate. -/
theorem runRequest_genCall_noDrums (env : Env) (dd : Wave × ℕ) (st : SrvState)
    (prompt : String) (chords : ChordsInput) (drums : Option Upload)
    (h : processDrums env drums = ⟨0, 0, .ok none⟩) :
    ∀ args, (runRequest env dd st ⟨prompt, chords, drums⟩).trace.genCall = some args →
      args.drumsWav = none ∧ args.drumsSampleRate = none := by
  intro args hargs
  rcases hch : processChords env.pyFloatStr chords with e | prog
  · rw [runRequest_chords_error env dd st ⟨prompt, chords, drums⟩ e hch] at hargs
    exact Option.noConfusion hargs
  · simp only [runRequest, hch, h] at hargs
    rcases hsc : scan st.disk st.counter 999 with _ | n
    · simp only [hsc] at hargs
      exact Option.noConfusion hargs
    · simp only [hsc] at hargs
      cases hargs
      exact ⟨rfl, rfl⟩

/-- C10: with the drums field absent or carrying an empty filename, the
`generate_music` call receives no drum reference at all (the `else` branch on
lines 147-153 passes only descriptions and chords), and the handler's entire
behaviour is independent of the `DEFAULT_DRUMS_WAV`/`DEFAULT_DRUMS_SR` pair
loaded on line 32 — its only would-be use, line 128, is commented out. -/
theorem c10_no_drums_no_reference (env : Env) (dd1 dd2 : Wave × ℕ)
    (st : SrvState) (prompt : String) (chords : ChordsInput)
    (drums : Option Upload) (h : hasDrums drums = false) :
    runRequest env dd1 st ⟨prompt, chords, drums⟩
      = runRequest env dd2 st ⟨prompt, chords, drums⟩
    ∧ ∀ args, (runRequest env dd1 st ⟨prompt, chords, drums⟩).trace.genCall = some args →
        args.drumsWav = none ∧ args.drumsSampleRate = none :=
  ⟨rfl, runRequest_genCall_noDrums env dd1 st prompt chords drums
    (processDrums_noDrums env drums h)⟩

theorem c10_witness :
    runRequest env0 dd0 st0 req0 = runRequest env0 ([[5, 7]], 48000) st0 req0
    ∧ ∀ args, (runRequest env0 dd0 st0 req0).trace.genCall = some args →
        args.drumsWav = none ∧ args.drumsSampleRate = none :=
  c10_no_drums_no_reference env0 dd0 ([[5, 7]], 48000) st0 "" .omitted none rfl

/-- C6: when the chords field parses to an array of (symbol, time) pairs all
of whose times are at most 10.0, validation passes and the progression handed
to `generate_music` is exactly the parsed list, element for element, each
pair coerced to `(str(chord), float(time))`, in the original order. -/
theorem c6_valid_chords_passed_through (env : Env) (dd : Wave × ℕ)
    (st : SrvState) (prompt : String) (drums : Option Upload)
    (pairs : List (Json × ℚ)) (h : ∀ p ∈ pairs, p.2 ≤ 10) :
    processChords env.pyFloatStr (.parsed (.jarr (pairs.map encPair)))
      = .ok (pairs.map fun p => (pyStr p.1, p.2))
    ∧ ∀ args,
        (runRequest env dd st ⟨prompt, .parsed (.jarr (pairs.map encPair)), drums⟩).trace.genCall
          = some args →
        args.chords = pairs.map fun p => (pyStr p.1, p.2) := by
  have hch : processChords env.pyFloatStr (.parsed (.jarr (pairs.map encPair)))
      = .ok (pairs.map fun p => (pyStr p.1, p.2)) := by
    simp only [processChords, pyIter, checkTimes_enc_ok env.pyFloatStr pairs h,
      coercePairs_enc]
  refine ⟨hch, fun args hargs => ?_⟩
  simp only [runRequest, hch] at hargs
  rcases hdr : (processDrums env drums).result with e | mw
  · simp only [hdr] at hargs
    exact Option.noConfusion hargs
  · simp only [hdr] at hargs
    rcases hsc : scan st.disk st.counter 999 with _ | n
    · simp only [hsc] at hargs
      exact Option.noConfusion hargs
    · simp only [hsc] at hargs
      cases hargs
      rfl

theorem c6_witness :
    processChords env0.pyFloatStr
        (.parsed (.jarr ([(Json.jstr "C", (0 : ℚ)), (Json.jstr "G", 7)].map encPair)))
      = .ok ([(Json.jstr "C", (0 : ℚ)), (Json.jstr "G", 7)].map fun p => (pyStr p.1, p.2))
    ∧ ∀ args,
        (runRequest env0 dd0 st0
            ⟨"p", .parsed (.jarr ([(Json.jstr "C", (0 : ℚ)), (Json.jstr "G", 7)].map encPair)),
              none⟩).trace.genCall = some args →
        args.chords = [(Json.jstr "C", (0 : ℚ)), (Json.jstr "G", 7)].map fun p => (pyStr p.1, p.2) :=
  c6_valid_chords_passed_through env0 dd0 st0 "p" none
    [(Json.jstr "C", (0 : ℚ)), (Json.jstr "G", 7)] (by decide)

/-- Pointwise value of a mapped zip. -/
theorem zipWith_map_getD (f : ℚ → ℚ → ℚ) (g : ℚ → ℚ) :
    ∀ (c1 c2 : List ℚ) (i : ℕ), i < (List.zipWith f c1 c2).length →
      ((List.zipWith f c1 c2).map g).getD i 0 = g (f (c1.getD i 0) (c2.getD i 0)) := by
  intro c1
  induction c1 with
  | nil => intro c2 i h; simp at h
  | cons a as ih =>
      intro c2 i h
      cases c2 with
      | nil => simp at h
      | cons b bs =>
          cases i with
          | zero => rfl
          | succ j =>
              simp only [List.zipWith_cons_cons, List.length_cons,
                Nat.succ_lt_succ_iff] at h
              simp only [List.zipWith_cons_cons, List.map_cons, List.getD_cons_succ]
              exact ih bs j h

/-- An environment whose decode step yields a stereo clip at 44100 Hz while
the model wants 32000 Hz, and whose (opaque) resampler returns `[[99]]`. -/
def envStereoMismatch : Env :=
  ⟨fun _ => none, .ok (), .ok ([[1, 3], [3, 5]], 44100), fun _ _ _ => .ok [[99]], 32000⟩

/-- C7 counterexample: an uploaded clip decoding to the stereo channels
`[1, 3]` and `[3, 5]` at 44100 Hz (model rate 32000 Hz) reaches
`generate_music` as the resampler's output `[[99]]` — the resample step on
lines 112-115 runs after the downmix, so the samples passed to generation are
not the per-sample channel means (`[[2, 4]]` here). -/
theorem c7_counterexample :
    (runRequest envStereoMismatch dd0 st0 ⟨"p", .omitted, some ⟨"clip.wav"⟩⟩).trace.genCall
      = some ⟨["p"], DEFAULT_CHORDS, some [[(99 : ℚ)]], some 32000⟩
    ∧ [[(99 : ℚ)]]
        ≠ [List.zipWith (fun a b => (a + b) / 2) ([1, 3] : List ℚ) [3, 5]] :=
  ⟨rfl, by norm_num⟩

/-- C7 amended: an uploaded drums file that decodes to two channels (of equal
length) is collapsed to exactly one channel whose every sample is the
arithmetic mean of the two original channels at that index, and that mean
waveform is what reaches `generate_music` when the decoded rate equals the
model's; when the rates differ, the mean waveform is first fed through the
resampler (lines 112-115) and generation receives the resampler's output
instead, so the samples passed are no longer the channel means. -/
theorem c7_amended_stereo_downmix (env : Env) (dd : Wave × ℕ) (st : SrvState)
    (prompt : String) (u : Upload) (c1 c2 : List ℚ) (sr : ℕ)
    (hu : ¬ u.filename = "")
    (hff : env.ffmpegResult = .ok ())
    (hdec : env.decodeResult = .ok ([c1, c2], sr))
    (hlen : c1.length = c2.length) :
    (sr = env.modelSampleRate →
      ∃ l : List ℚ,
        (processDrums env (some u)).result = .ok (some [l])
        ∧ l.length = c1.length
        ∧ (∀ i, i < l.length → l.getD i 0 = (c1.getD i 0 + c2.getD i 0) / 2)
        ∧ ∀ args,
            (runRequest env dd st ⟨prompt, .omitted, some u⟩).trace.genCall = some args →
            args.drumsWav = some [l])
    ∧ (sr ≠ env.modelSampleRate →
        ∀ w2, env.resampleResult sr env.modelSampleRate (meanChannels [c1, c2]) = .ok w2 →
          (processDrums env (some u)).result = .ok (some w2)
          ∧ ∀ args,
              (runRequest env dd st ⟨prompt, .omitted, some u⟩).trace.genCall = some args →
              args.drumsWav = some w2) := by
  have hch : processChords env.pyFloatStr ChordsInput.omitted = .ok DEFAULT_CHORDS := rfl
  have hw1 : (if ([c1, c2] : Wave).length ≠ 1 then meanChannels [c1, c2] else [c1, c2])
      = meanChannels [c1, c2] := by norm_num
  constructor
  · intro hsr
    subst hsr
    have hpd : processDrums env (some u) = ⟨2, 2, .ok (some (meanChannels [c1, c2]))⟩ := by
      simp only [processDrums, if_neg hu, hff, hdec]
      norm_num
    refine ⟨(List.zipWith (· + ·) c1 c2).map fun x => x / (([c1, c2] : Wave).length : ℚ),
      ?_, ?_, ?_, ?_⟩
    · rw [hpd]
      rfl
    · simp [List.length_zipWith, hlen]
    · intro i hi
      simp only [List.length_map] at hi
      rw [zipWith_map_getD (· + ·) _ c1 c2 i hi]
      norm_num
    · intro args hargs
      simp only [runRequest, hch, hpd] at hargs
      rcases hsc : scan st.disk st.counter 999 with _ | n
      · simp only [hsc] at hargs
        exact Option.noConfusion hargs
      · simp only [hsc] at hargs
        cases hargs
        rfl
  · intro hsr w2 hres
    have hpd : processDrums env (some u) = ⟨2, 2, .ok (some w2)⟩ := by
      simp only [processDrums, if_neg hu, hff, hdec, hw1, if_neg hsr, hres]
    refine ⟨by rw [hpd], ?_⟩
    intro args hargs
    simp only [runRequest, hch, hpd] at hargs
    rcases hsc : scan st.disk st.counter 999 with _ | n
    · simp only [hsc] at hargs
      exact Option.noConfusion hargs
    · simp only [hsc] at hargs
      cases hargs
      rfl

/-- An environment whose decode step yields a stereo clip at the model's
rate. -/
def envStereo : Env :=
  ⟨fun _ => none, .ok (), .ok ([[1, 3], [3, 5]], 32000), fun _ _ w => .ok w, 32000⟩

theorem c7_witness :
    (∃ l : List ℚ,
      (processDrums envStereo (some ⟨"clip.wav"⟩)).result = .ok (some [l])
      ∧ l.length = ([1, 3] : List ℚ).length
      ∧ (∀ i, i < l.length →
          l.getD i 0 = (([1, 3] : List ℚ).getD i 0 + ([3, 5] : List ℚ).getD i 0) / 2)
      ∧ ∀ args,
          (runRequest envStereo dd0 st0 ⟨"p", .omitted, some ⟨"clip.wav"⟩⟩).trace.genCall
            = some args →
          args.drumsWav = some [l])
    ∧ ((processDrums envStereoMismatch (some ⟨"clip.wav"⟩)).result = .ok (some [[(99 : ℚ)]])
      ∧ ∀ args,
          (runRequest envStereoMismatch dd0 st0
              ⟨"p", .omitted, some ⟨"clip.wav"⟩⟩).trace.genCall = some args →
          args.drumsWav = some [[(99 : ℚ)]]) :=
  ⟨(c7_amended_stereo_downmix envStereo dd0 st0 "p" ⟨"clip.wav"⟩ [1, 3] [3, 5] 32000
      (by decide) rfl rfl rfl).1 rfl,
    (c7_amended_stereo_downmix envStereoMismatch dd0 st0 "p" ⟨"clip.wav"⟩ [1, 3] [3, 5] 44100
      (by decide) rfl rfl rfl).2 (by decide) [[(99 : ℚ)]] rfl⟩

/-- C9: the `file_counter` global starts at 1 and every handler run leaves it
in `{1..999}`; and (with the counter in range) the filename-scanning loop
terminates precisely when some slot in `{1..999}` is free — if all 999 files
exist it spins forever (no fuel suffices). -/
theorem c9_counter_range_and_scan_termination :
    INITIAL_FILE_COUNTER = 1
    ∧ (∀ (env : Env) (dd : Wave × ℕ) (st : SrvState) (req : Request),
        1 ≤ st.counter → st.counter ≤ 999 →
        1 ≤ (runRequest env dd st req).finalCounter
          ∧ (runRequest env dd st req).finalCounter ≤ 999)
    ∧ (∀ (disk : ℕ → Bool) (c : ℕ), 1 ≤ c → c ≤ 999 →
        ((∃ fuel n, scan disk c fuel = some n)
          ↔ ∃ n, 1 ≤ n ∧ n ≤ 999 ∧ disk n = false))
    ∧ (∀ (disk : ℕ → Bool) (c : ℕ), 1 ≤ c → c ≤ 999 →
        (∀ n, 1 ≤ n → n ≤ 999 → disk n = true) →
        ∀ fuel, scan disk c fuel = none) := by
  refine ⟨rfl, ?_, ?_, ?_⟩
  · intro env dd st req h1 h2
    have hmod : 1 ≤ st.counter % 999 + 1 ∧ st.counter % 999 + 1 ≤ 999 := by
      have := Nat.mod_lt st.counter (show 0 < 999 by norm_num)
      omega
    rcases hch : processChords env.pyFloatStr req.chords with e | prog
    · rw [runRequest_chords_error env dd st req e hch]
      exact ⟨h1, h2⟩
    · simp only [runRequest, hch]
      rcases hdr : (processDrums env req.drums).result with e | mw
      · simp only [hdr]
        exact ⟨h1, h2⟩
      · simp only [hdr]
        rcases hsc : scan st.disk st.counter 999 with _ | n
        · simp only [hsc]
          exact ⟨h1, h2⟩
        · simp only [hsc]
          have := Nat.mod_lt n (show 0 < 999 by norm_num)
          omega
  · intro disk c h1 h2
    constructor
    · rintro ⟨fuel, n, h⟩
      obtain ⟨hn1, hn2, hn3⟩ := scan_ok_range disk fuel c n h1 h2 h
      exact ⟨n, hn1, hn2, hn3⟩
    · rintro ⟨n, hn1, hn2, hn3⟩
      obtain ⟨r, hr⟩ := scan_succeeds_of_free disk c h1 h2 n hn1 hn2 hn3
      exact ⟨999, r, hr⟩
  · intro disk c h1 h2 hfull fuel
    exact scan_all_full disk hfull fuel c h1 h2

theorem c9_witness :
    (1 ≤ (runRequest env0 dd0 st0 req0).finalCounter
      ∧ (runRequest env0 dd0 st0 req0).finalCounter ≤ 999)
    ∧ (∃ fuel n, scan (fun _ => false) 1 fuel = some n) :=
  ⟨c9_counter_range_and_scan_termination.2.1 env0 dd0 st0 req0 (by decide) (by decide),
    (c9_counter_range_and_scan_termination.2.2.1 (fun _ => false) 1 (by decide)
      (by decide)).mpr ⟨1, by decide, by decide, rfl⟩⟩

/-! ### Sequential runs -/

theorem runSeq_length (env : Env) (dd : Wave × ℕ) :
    ∀ (rs : List Request) (st : SrvState) (l : List (SrvState × ℕ)) (stFin : SrvState),
      runSeq env dd rs st = some (l, stFin) → l.length = rs.length := by
  intro rs
  induction rs with
  | nil =>
      intro st l stFin h
      simp only [runSeq] at h
      cases h
      rfl
  | cons r rs ih =>
      intro st l stFin h
      simp only [runSeq] at h
      rcases hout : (runRequest env dd st r).outcome with n | ⟨s, d⟩ | _
      · simp only [hout] at h
        rcases hrec : runSeq env dd rs
            ⟨(runRequest env dd st r).finalCounter,
              (runRequest env dd st r).finalDisk⟩ with _ | ⟨l2, st2⟩
        · simp only [hrec] at h
          exact Option.noConfusion h
        · simp only [hrec] at h
          cases h
          simp only [List.length_cons]
          rw [ih _ l2 stFin hrec]
      · simp only [hout] at h
        exact Option.noConfusion h
      · simp only [hout] at h
        exact Option.noConfusion h

theorem runSeq_head (env : Env) (dd : Wave × ℕ) :
    ∀ (rs : List Request) (st : SrvState) (l : List (SrvState × ℕ)) (stFin : SrvState),
      runSeq env dd rs st = some (l, stFin) →
      ∀ p, l.head? = some p → p.1 = st := by
  intro rs
  cases rs with
  | nil =>
      intro st l stFin h p hp
      simp only [runSeq] at h
      cases h
      exact Option.noConfusion hp
  | cons r rs =>
      intro st l stFin h p hp
      simp only [runSeq] at h
      rcases hout : (runRequest env dd st r).outcome with n | ⟨s, d⟩ | _
      · simp only [hout] at h
        rcases hrec : runSeq env dd rs
            ⟨(runRequest env dd st r).finalCounter,
              (runRequest env dd st r).finalDisk⟩ with _ | ⟨l2, st2⟩
        · simp only [hrec] at h
          exact Option.noConfusion h
        · simp only [hrec] at h
          cases h
          simp only [List.head?_cons] at hp
          cases hp
          rfl
      · simp only [hout] at h
        exact Option.noConfusion h
      · simp only [hout] at h
        exact Option.noConfusion h

/-- C8: across any run of successful sequential requests starting from a
state whose occupied slots include everything below the counter (so in
particular from the fresh state: counter 1), the chosen filenames are
strictly increasing (bounded by 999); each chosen slot was free and every
slot the scan skipped was occupied at that moment; after each request the
counter advances past the slot just used, wrapping modulo 999 back to 1, and
the disk gains exactly that slot. -/
theorem c8_filename_sequence (env : Env) (dd : Wave × ℕ) :
    ∀ (rs : List Request) (st : SrvState) (l : List (SrvState × ℕ)) (stFin : SrvState),
      1 ≤ st.counter → st.counter ≤ 999 →
      (∀ m, 1 ≤ m → m < st.counter → st.disk m = true) →
      runSeq env dd rs st = some (l, stFin) →
      (l.map Prod.snd).Chain' (· < ·)
      ∧ (∀ p ∈ l, p.1.disk p.2 = false ∧ p.1.counter ≤ p.2 ∧ 1 ≤ p.2 ∧ p.2 ≤ 999
          ∧ ∀ m, p.1.counter ≤ m → m < p.2 → p.1.disk m = true)
      ∧ l.Chain' (fun p q => q.1.counter = p.2 % 999 + 1
          ∧ q.1.disk = fun m => m == p.2 || p.1.disk m)
      ∧ (∀ p, l.getLast? = some p → stFin.counter = p.2 % 999 + 1) := by
  intro rs
  induction rs with
  | nil =>
      intro st l stFin _ _ _ h
      simp only [runSeq] at h
      cases h
      exact ⟨List.chain'_nil, fun p hp => absurd hp (List.not_mem_nil p),
        List.chain'_nil, fun p hp => Option.noConfusion hp⟩
  | cons r rs ih =>
      intro st l stFin hc1 hc2 hinv h
      simp only [runSeq] at h
      rcases hout : (runRequest env dd st r).outcome with n | ⟨s, d⟩ | _
      · simp only [hout] at h
        obtain ⟨hsc, hfc, hfd⟩ := runRequest_ok_inv env dd st r n hout
        rcases hrec : runSeq env dd rs
            ⟨(runRequest env dd st r).finalCounter,
              (runRequest env dd st r).finalDisk⟩ with _ | ⟨l2, st2⟩
        · simp only [hrec] at h
          exact Option.noConfusion h
        · simp only [hrec] at h
          cases h
          rw [hfc, hfd] at hrec
          obtain ⟨hn1, hn2, hn3, hn4⟩ :=
            scan_no_wrap st.disk 999 st.counter n hc1 hc2 hinv hsc
          have hmodlt := Nat.mod_lt n (show 0 < 999 by norm_num)
          have hinv2 : ∀ m, 1 ≤ m → m < n % 999 + 1 →
              (m == n || st.disk m) = true := by
            intro m hm1 hm2
            by_cases hn999 : n = 999
            · subst hn999
              norm_num at hm2
              omega
            · have hmod : n % 999 = n := Nat.mod_eq_of_lt (by omega)
              rw [hmod] at hm2
              simp only [Bool.or_eq_true, beq_iff_eq]
              by_cases hmn : m = n
              · exact .inl hmn
              · refine .inr ?_
                rcases Nat.lt_or_ge m st.counter with hlt | hge
                · exact hinv m hm1 hlt
                · exact hn4 m hge (by omega)
          obtain ⟨ihChain, ihElems, ihStates, ihLast⟩ :=
            ih ⟨n % 999 + 1, fun m => m == n || st.disk m⟩ l2 stFin
              (by show 1 ≤ n % 999 + 1; omega)
              (by show n % 999 + 1 ≤ 999; omega)
              hinv2 hrec
          have hl2of999 : n = 999 → l2 = [] := by
            intro hn999
            cases l2 with
            | nil => rfl
            | cons p l3 =>
                exfalso
                have hp1 : p.1 = ⟨n % 999 + 1, fun m => m == n || st.disk m⟩ :=
                  runSeq_head env dd rs _ (p :: l3) stFin hrec p rfl
                obtain ⟨hfresh, _, hge1, hle999, _⟩ :=
                  ihElems p (List.mem_cons_self p l3)
                rw [hp1] at hfresh
                have hfresh2 : (p.2 == n || st.disk p.2) = false := hfresh
                rw [Bool.or_eq_false_iff] at hfresh2
                obtain ⟨hbeq, hdisk⟩ := hfresh2
                have hpne : p.2 ≠ n := by
                  intro hpe
                  rw [hpe] at hbeq
                  simp at hbeq
                subst hn999
                have hplt : p.2 < 999 := by omega
                rcases Nat.lt_or_ge p.2 st.counter with hlt | hge
                · exact absurd (hinv p.2 hge1 hlt) (by rw [hdisk]; intro hh; cases hh)
                · exact absurd (hn4 p.2 hge hplt) (by rw [hdisk]; intro hh; cases hh)
          refine ⟨?_, ?_, ?_, ?_⟩
          · rw [List.map_cons, List.chain'_cons']
            refine ⟨?_, ihChain⟩
            intro y hy
            cases l2 with
            | nil => exact absurd hy (by simp)
            | cons p l3 =>
                simp only [List.map_cons, List.head?_cons, Option.mem_def,
                  Option.some.injEq] at hy
                subst hy
                have hp1 : p.1 = ⟨n % 999 + 1, fun m => m == n || st.disk m⟩ :=
                  runSeq_head env dd rs _ (p :: l3) stFin hrec p rfl
                have hcle : p.1.counter ≤ p.2 :=
                  (ihElems p (List.mem_cons_self p l3)).2.1
                by_cases hn999 : n = 999
                · exact absurd (hl2of999 hn999) (by intro hh; cases hh)
                · have hmod : n % 999 = n := Nat.mod_eq_of_lt (by omega)
                  rw [hp1] at hcle
                  have hcle2 : n % 999 + 1 ≤ p.2 := hcle
                  omega
          · intro p hp
            rcases List.mem_cons.mp hp with heq | hmem
            · subst heq
              exact ⟨hn3, hn1, by omega, hn2, hn4⟩
            · exact ihElems p hmem
          · rw [List.chain'_cons']
            refine ⟨?_, ihStates⟩
            intro q hq
            cases l2 with
            | nil => exact absurd hq (by simp)
            | cons p l3 =>
                simp only [List.head?_cons, Option.mem_def, Option.some.injEq] at hq
                subst hq
                have hp1 : p.1 = ⟨n % 999 + 1, fun m => m == n || st.disk m⟩ :=
                  runSeq_head env dd rs _ (p :: l3) stFin hrec p rfl
                exact ⟨by rw [hp1], by rw [hp1]⟩
          · intro p hp
            cases l2 with
            | nil =>
                simp only [List.getLast?_singleton, Option.some.injEq] at hp
                subst hp
                have hlen := runSeq_length env dd rs _ [] stFin hrec
                have hrs : rs = [] := by
                  cases rs with
                  | nil => rfl
                  | cons a as => simp at hlen
                subst hrs
                simp only [runSeq, Option.some.injEq, Prod.mk.injEq] at hrec
                rw [← hrec.2]
            | cons p2 l3 =>
                rw [List.getLast?_cons_cons] at hp
                exact ihLast p hp
      · simp only [hout] at h
        exact Option.noConfusion h
      · simp only [hout] at h
        exact Option.noConfusion h

theorem c8_witness :
    ∃ (l : List (SrvState × ℕ)) (stFin : SrvState),
      runSeq env0 dd0 [req0, req0, req0] st0 = some (l, stFin)
      ∧ (l.map Prod.snd).Chain' (· < ·)
      ∧ ∀ p ∈ l, p.1.disk p.2 = false ∧ p.1.counter ≤ p.2 ∧ 1 ≤ p.2 ∧ p.2 ≤ 999
          ∧ ∀ m, p.1.counter ≤ m → m < p.2 → p.1.disk m = true := by
  have hinv : ∀ m, 1 ≤ m → m < st0.counter → st0.disk m = true := by
    intro m h1 h2
    simp only [st0] at h2
    omega
  obtain ⟨h1, h2, _, _⟩ :=
    c8_filename_sequence env0 dd0 [req0, req0, req0] st0 _ _
      (by decide) (by decide) hinv rfl
  exact ⟨_, _, rfl, h1, h2⟩

end Deluloop
